import Mathlib

/-!
Verification of the blackjack payout trainer's calculation core
(`script.js`): hand scoring, payout evaluation and validation, greedy
chip decomposition, scenario generation, and session counters.

Modelling conventions:
* Money amounts are rational numbers (`ℚ`).  Every amount the program
  manipulates is a whole number of cents (bets are whole dollars, chip
  values are multiples of $0.50, and the decomposition loop rounds its
  running remainder to cents), so exact rational arithmetic coincides
  with the intended arithmetic; binary floating-point representation
  error is outside the scope of this model.
* JavaScript's `Math.floor` on a quotient of amounts is `Int.floor` of
  the rational quotient; `Math.round` is `fun x => ⌊x + 1/2⌋` (JS rounds
  half toward positive infinity).
* The scenario generator's two sources of randomness — the shuffled
  deck and the random bet index — are passed in as parameters, so a
  theorem quantifying over them covers every reachable random outcome.
  Its two `while` loops are modelled with explicit fuel, returning
  `none` when the fuel runs out; claims are stated for every run that
  produces a scenario.
-/

namespace Blackjack

/-! ### Cards (`Card` class, script.js) -/

inductive Suit
  | hearts | diamonds | clubs | spades
deriving DecidableEq, Repr

inductive Rank
  | A | r2 | r3 | r4 | r5 | r6 | r7 | r8 | r9 | r10 | J | Q | K
deriving DecidableEq, Repr

structure Card where
  suit : Suit
  rank : Rank
deriving DecidableEq, Repr

/-- Card.getCardValue: ace is 11 initially, K/Q/J are 10, numeric ranks
their face value.  The JS constructor stores this as `card.value`. -/
def getCardValue : Rank → ℕ
  | .A => 11
  | .K => 10
  | .Q => 10
  | .J => 10
  | .r2 => 2
  | .r3 => 3
  | .r4 => 4
  | .r5 => 5
  | .r6 => 6
  | .r7 => 7
  | .r8 => 8
  | .r9 => 9
  | .r10 => 10

/-- the stored `card.value` field -/
def Card.value (c : Card) : ℕ := getCardValue c.rank

/-- Card.isAce: `this.rank === 'A'` -/
def Card.isAce (c : Card) : Bool := c.rank = Rank.A

/-- membership test `['10','J','Q','K'].includes(card.rank)` used by the
scenario generator to find ten-valued cards -/
def isTenValue (c : Card) : Bool :=
  c.rank = Rank.r10 ∨ c.rank = Rank.J ∨ c.rank = Rank.Q ∨ c.rank = Rank.K

/-! ### Hand valuation (`Hand.calculateValue`, script.js) -/

/-- result of `Hand.calculateValue`: the four fields the method writes
back onto the hand object -/
structure HandState where
  value : ℕ
  softAces : ℕ
  isBlackjack : Bool
  isBust : Bool
deriving DecidableEq, Repr

/-- the `while (this.value > 21 && this.softAces > 0)` loop: repeatedly
convert one soft ace from 11 to 1 (subtract 10) while the total busts.
The loop runs at most `softAces` times, so recursion on that counter is
exact. -/
def reduceAces : ℕ → ℕ → ℕ × ℕ
  | v, 0 => (v, 0)
  | v, s + 1 => if 21 < v then reduceAces (v - 10) s else (v, s + 1)

/-- Hand.calculateValue: sum the stored card values (aces counted 11),
count aces as soft, run the ace-reduction loop, then set the blackjack
flag (value 21 with exactly 2 cards) and the bust flag (value over 21). -/
def calculateValue (cards : List Card) : HandState :=
  let total := (cards.map Card.value).sum
  let aces := (cards.filter Card.isAce).length
  let r := reduceAces total aces
  { value := r.1
    softAces := r.2
    isBlackjack := decide (r.1 = 21 ∧ cards.length = 2)
    isBust := decide (21 < r.1) }

/-! Lemmas about the ace-reduction loop. -/

theorem reduceAces_le (v s : ℕ) : (reduceAces v s).1 ≤ v := by
  induction s generalizing v with
  | zero => simp [reduceAces]
  | succ s ih =>
    simp only [reduceAces]
    split
    · exact le_trans (ih (v - 10)) (Nat.sub_le v 10)
    · exact le_refl v

theorem reduceAces_snd_le (v s : ℕ) : (reduceAces v s).2 ≤ s := by
  induction s generalizing v with
  | zero => simp [reduceAces]
  | succ s ih =>
    simp only [reduceAces]
    split
    · exact le_trans (ih (v - 10)) (Nat.le_succ s)
    · exact le_refl (s + 1)

theorem reduceAces_eq (v s : ℕ) :
    (reduceAces v s).1 = v - 10 * (s - (reduceAces v s).2) := by
  induction s generalizing v with
  | zero => simp [reduceAces]
  | succ s ih =>
    simp only [reduceAces]
    split
    · have h2 := reduceAces_snd_le (v - 10) s
      rw [ih (v - 10)]
      omega
    · simp

theorem reduceAces_ge (v s : ℕ) : v - 10 * s ≤ (reduceAces v s).1 := by
  have h1 := reduceAces_eq v s
  have h2 := reduceAces_snd_le v s
  omega

theorem reduceAces_bust (v s : ℕ) (h : 21 < (reduceAces v s).1) :
    (reduceAces v s).2 = 0 := by
  induction s generalizing v with
  | zero => simp [reduceAces]
  | succ s ih =>
    by_cases hv : 21 < v
    · simp only [reduceAces, if_pos hv] at h ⊢
      exact ih (v - 10) h
    · simp only [reduceAces, if_neg hv] at h
      omega

/-! ### Scenarios (`BlackjackScenario` class, script.js) -/

/-- a `BlackjackScenario` object; `result` is a string exactly as in the
JS, and `correctPayout` is the value computed in the constructor -/
structure Scenario where
  playerHand : List Card
  dealerHand : List Card
  betAmount : ℚ
  result : String
  correctPayout : ℚ
deriving DecidableEq, Repr

/-- BlackjackScenario.determineResult: hard-coded to blackjack for
training -/
def determineResult : String := "blackjack"

/-- the `BlackjackScenario` constructor: stores both hands and the bet,
then `result = determineResult()` and
`correctPayout = calculateCorrectPayout() = betAmount * 1.5` -/
def mkBlackjackScenario (playerHand dealerHand : List Card) (betAmount : ℚ) :
    Scenario :=
  { playerHand := playerHand
    dealerHand := dealerHand
    betAmount := betAmount
    result := determineResult
    correctPayout := betAmount * 1.5 }

/-! ### Payout calculation (`PayoutCalculator`, script.js) -/

/-- the `payoutRules` table built in the `PayoutCalculator` constructor -/
structure PayoutRules where
  blackjack : ℚ
  win : ℚ
  push : ℚ
  lose : ℚ

def payoutRules : PayoutRules := { blackjack := 1.5, win := 1.0, push := 0.0, lose := 0.0 }

/-- `this.tolerance = 0.01`, the floating point tolerance -/
def tolerance : ℚ := 0.01

/-- PayoutCalculator.calculatePayout: `0` for a missing scenario,
`betAmount * 1.5` for blackjack, the rule table for `win`, `0` for
`push`/`lose`, and `0` (with a console warning) for any unknown result
string.  The JS `switch` is modelled by the cascade of string tests. -/
def calculatePayout : Option Scenario → ℚ
  | none => 0
  | some s =>
    if s.result = "blackjack" then s.betAmount * 1.5
    else if s.result = "win" then s.betAmount * payoutRules.win
    else if s.result = "push" then 0
    else if s.result = "lose" then 0
    else 0

/-- JS `Number.prototype.toFixed(2)`: the nearest 2-decimal
representation, ties picking the larger candidate; negative numbers are
formatted by prefixing a minus sign.  Only used to build the
human-readable feedback strings. -/
def toFixed2abs (q : ℚ) : String :=
  let n : ℕ := (⌊q * 100 + 1/2⌋).toNat
  toString (n / 100) ++ "." ++ (if n % 100 < 10 then "0" else "") ++ toString (n % 100)

def toFixed2 (q : ℚ) : String :=
  if q < 0 then "-" ++ toFixed2abs (-q) else toFixed2abs q

/-- JS template-literal rendering of a bet amount (always a whole-dollar
value in this program) -/
def amountString (q : ℚ) : String :=
  if q.den = 1 then toString q.num else toFixed2 q

/-- PayoutCalculator.getSuccessMessage -/
def getSuccessMessage (result : String) (betAmount correctAmount : ℚ) : String :=
  if result = "blackjack" then
    "✅ Correct! Blackjack pays 3:2. $" ++ amountString betAmount ++ " × 1.5 = $" ++ toFixed2 correctAmount
  else if result = "win" then
    "✅ Correct! Regular win pays 1:1. $" ++ amountString betAmount ++ " × 1 = $" ++ toFixed2 correctAmount
  else if result = "push" then
    "✅ Correct! Push means no additional payout (return original bet only)."
  else if result = "lose" then
    "✅ Correct! House wins - no payout needed."
  else
    "✅ Correct payout!"

/-- PayoutCalculator.getErrorMessage -/
def getErrorMessage (result : String) (betAmount selectedAmount correctAmount : ℚ) : String :=
  let difference := selectedAmount - correctAmount
  let overUnder := if 0 < difference then "over" else "under"
  let explanation :=
    if result = "blackjack" then
      "Blackjack pays 3:2. Calculate: $" ++ amountString betAmount ++ " × 1.5 = $" ++ toFixed2 correctAmount
    else if result = "win" then
      "Regular win pays 1:1. Calculate: $" ++ amountString betAmount ++ " × 1 = $" ++ toFixed2 correctAmount
    else if result = "push" then
      "Push means no additional payout. Only return the original bet."
    else if result = "lose" then
      "House wins - no payout is made."
    else ""
  "❌ Incorrect. You selected $" ++ toFixed2 selectedAmount ++ " but the correct payout is $" ++
    toFixed2 correctAmount ++ " (" ++ overUnder ++ " by $" ++ toFixed2 |difference| ++ "). " ++ explanation

/-- PayoutCalculator.getValidationMessage -/
def getValidationMessage (s : Scenario) (selectedAmount correctAmount : ℚ)
    (isCorrect : Bool) : String :=
  if isCorrect then getSuccessMessage s.result s.betAmount correctAmount
  else getErrorMessage s.result s.betAmount selectedAmount correctAmount

/-- return value of `validatePayout`: the missing-scenario early return
carries only `isCorrect` and `message`; the normal return carries all
five fields -/
inductive ValidationResult where
  | missing (isCorrect : Bool) (message : String)
  | normal (isCorrect : Bool) (correctAmount selectedAmount difference : ℚ)
      (message : String)
deriving DecidableEq, Repr

def ValidationResult.isCorrect : ValidationResult → Bool
  | .missing c _ => c
  | .normal c _ _ _ _ => c

def ValidationResult.message : ValidationResult → String
  | .missing _ m => m
  | .normal _ _ _ _ m => m

/-- `correctAmount` field when present -/
def ValidationResult.correctAmount : ValidationResult → Option ℚ
  | .missing _ _ => none
  | .normal _ ca _ _ _ => some ca

/-- `selectedAmount` field when present -/
def ValidationResult.selectedAmount : ValidationResult → Option ℚ
  | .missing _ _ => none
  | .normal _ _ sa _ _ => some sa

/-- `difference` field when present -/
def ValidationResult.difference : ValidationResult → Option ℚ
  | .missing _ _ => none
  | .normal _ _ _ d _ => some d

/-- PayoutCalculator.validatePayout: early return
`{isCorrect:false, message:'No scenario provided'}` for a missing
scenario; otherwise `isCorrect = |selected - correct| < tolerance`
together with the correct amount, the submitted amount, their
difference, and the feedback message.  It is a total function: no code
path throws. -/
def validatePayout : Option Scenario → ℚ → ValidationResult
  | none, _ => .missing false "No scenario provided"
  | some s, selectedAmount =>
    let correctPayout := calculatePayout (some s)
    let isCorrect : Bool := decide (|selectedAmount - correctPayout| < tolerance)
    .normal isCorrect correctPayout selectedAmount (selectedAmount - correctPayout)
      (getValidationMessage s selectedAmount correctPayout isCorrect)

/-! ### Greedy chip decomposition
(`PayoutCalculator.calculateOptimalChips`, script.js)

The algorithm only reads the `value` field of the chip objects it is
given, so available chips are modelled by their values. -/

/-- `Math.round((...) * 100) / 100`, the handle-floating-point rounding
to whole cents applied to the running remainder -/
def roundCents (q : ℚ) : ℚ := (⌊q * 100 + 1/2⌋ : ℤ) / 100

/-- stable insertion used to model
`[...availableChips].sort((a, b) => b.value - a.value)` (descending) -/
def insertDesc (x : ℚ) : List ℚ → List ℚ
  | [] => [x]
  | y :: ys => if y < x then x :: y :: ys else y :: insertDesc x ys

/-- descending stable sort of the chip values -/
def sortDesc : List ℚ → List ℚ
  | [] => []
  | x :: xs => insertDesc x (sortDesc xs)

/-- the `for (const chip of sortedChips)` loop: take
`count = Math.floor(remaining / chip.value)` of each chip, record the
pair when `count > 0`, and round the new remainder to cents.  Returns
the recorded `(value, count)` pairs and the final remainder. -/
def greedyLoop : List ℚ → ℚ → List (ℚ × ℤ) × ℚ
  | [], remaining => ([], remaining)
  | v :: rest, remaining =>
    let count : ℤ := ⌊remaining / v⌋
    if 0 < count then
      let next := greedyLoop rest (roundCents (remaining - count * v))
      ((v, count) :: next.1, next.2)
    else greedyLoop rest remaining

/-- PayoutCalculator.calculateOptimalChips: `[]` for a non-positive
target, otherwise run the greedy loop over the chips sorted by value
descending and return the pairs when the remainder is below tolerance,
`null` (modelled `none`) otherwise. -/
def calculateOptimalChips (payoutAmount : ℚ) (availableChips : List ℚ) :
    Option (List (ℚ × ℤ)) :=
  if payoutAmount ≤ 0 then some []
  else
    let r := greedyLoop (sortDesc availableChips) payoutAmount
    if r.2 < tolerance then some r.1 else none

/-- the seven denominations of `ChipManager.chips`, the chip set the
application passes to `calculateOptimalChips` -/
def stdChips : List ℚ := [1, 2.5, 5, 25, 100, 500, 1000]

/-- `count × value` summed over the returned pairs -/
def chipSum (l : List (ℚ × ℤ)) : ℚ := (l.map fun p => (p.2 : ℚ) * p.1).sum

/-! ### Bet-chip display (`PayoutCalculator.calculateBetChips`, script.js) -/

/-- an entry of the hard-coded `chipDenominations` table -/
structure BetChip where
  value : ℚ
  color : String
  label : String
deriving DecidableEq, Repr

/-- the hard-coded denomination table, casino order (largest first) -/
def chipDenominations : List BetChip :=
  [ { value := 1000, color := "chip-1000", label := "$1K" },
    { value := 500, color := "chip-500", label := "$500" },
    { value := 100, color := "chip-100", label := "$100" },
    { value := 25, color := "chip-25", label := "$25" },
    { value := 5, color := "chip-5", label := "$5" },
    { value := 2.50, color := "chip-2-50", label := "$2.50" },
    { value := 1, color := "chip-1", label := "$1" } ]

/-- the `for (const chipType of chipDenominations)` loop of
`calculateBetChips`, including the two casino-style `Math.min`
adjustments applied to the $25 and $5 counts -/
def betLoop : List BetChip → ℚ → List (BetChip × ℤ)
  | [], _ => []
  | c :: rest, remaining =>
    let count0 : ℤ := ⌊remaining / c.value⌋
    let count : ℤ :=
      if c.value = 25 ∧ 0 < count0 then min count0 ⌊remaining / 25⌋
      else if c.value = 5 ∧ 0 < count0 then min count0 ⌊remaining / 5⌋
      else count0
    if 0 < count then
      (c, count) :: betLoop rest (roundCents (remaining - count * c.value))
    else betLoop rest remaining

/-- PayoutCalculator.calculateBetChips: render a bet amount as a chip
stack for display, walking the hard-coded denomination table -/
def calculateBetChips (betAmount : ℚ) : List (BetChip × ℤ) :=
  betLoop chipDenominations betAmount

/-! ### Scenario generation (`ScenarioManager`, script.js)

`shuffleDeck` (Fisher-Yates with `Math.random`) can produce any
permutation; it is modelled by taking the already-shuffled deck as a
parameter.  Re-shuffles triggered inside `dealCard` are likewise fed
from a parameter list of replacement decks, falling back to the deck in
construction order (one possible shuffle outcome) when that list is
exhausted. -/

def suits : List Suit := [.hearts, .diamonds, .clubs, .spades]

def ranks : List Rank :=
  [.A, .r2, .r3, .r4, .r5, .r6, .r7, .r8, .r9, .r10, .J, .Q, .K]

/-- ScenarioManager.initializeDeck: the standard 52-card deck in
construction order (all ranks of hearts, then diamonds, clubs, spades) -/
def initializeDeck : List Card :=
  (suits.map fun s => ranks.map fun r => { suit := s, rank := r }).flatten

/-- the `betAmounts` array of the `ScenarioManager` constructor -/
def betAmounts : List ℚ :=
  [5, 10, 15, 20, 25, 30, 35, 40, 50, 60, 75, 100, 125, 150, 200, 250, 300, 500,
   7, 12, 17, 22, 27, 32, 37, 42, 47, 52, 67, 72, 87, 92, 107, 117, 137, 147, 167, 177]

/-- deck plus the stream of decks used for in-deal reshuffles -/
structure DealState where
  deck : List Card
  reshuffles : List (List Card)
deriving DecidableEq, Repr

/-- ScenarioManager.dealCard: when fewer than 10 cards remain, replace
the deck with a freshly initialized and shuffled one, then `pop` the
last card.  `none` only in the degenerate case of an empty replacement
deck. -/
def dealCard (st : DealState) : Option (Card × DealState) :=
  let st2 := if st.deck.length < 10 then
      { deck := st.reshuffles.headD initializeDeck, reshuffles := st.reshuffles.tail }
    else st
  match st2.deck.getLast? with
  | none => none
  | some c => some (c, { st2 with deck := st2.deck.dropLast })

/-- remove the first card matching `p`.  This models the JS pattern
`const xs = deck.filter(p); const i = deck.indexOf(xs[0]);
deck.splice(i, 1)`: `indexOf` of the first filtered element is the
position of the first match, and `splice` removes it. -/
def spliceFirst (p : Card → Bool) : List Card → Option (Card × List Card)
  | [] => none
  | c :: rest =>
    if p c then some (c, rest)
    else (spliceFirst p rest).map fun x => (x.1, c :: x.2)

/-- the FORCE PLAYER BLACKJACK block of `generateScenario`: take the
first ace and the first ten-valued card out of the deck; if either is
absent fall back to synthetic `A♥` and `K♠` cards, leaving the deck
untouched.  (The ten-card filter is computed before the ace is removed,
but an ace is not ten-valued, so removing it changes neither the filter
result nor which card is the first ten.) -/
def dealPlayerBlackjack (deck : List Card) : List Card × List Card :=
  match spliceFirst Card.isAce deck with
  | some (ace, d1) =>
    match spliceFirst isTenValue d1 with
    | some (ten, d2) => ([ace, ten], d2)
    | none => ([{ suit := .hearts, rank := .A }, { suit := .spades, rank := .K }], deck)
  | none => ([{ suit := .hearts, rank := .A }, { suit := .spades, rank := .K }], deck)

/-- the `while (dealerHand.cards[0].value === 11 && secondCard.value
=== 10)` redraw loop for the dealer's second card, with explicit fuel -/
def redrawLoop : ℕ → ℕ → Card → DealState → Option (Card × DealState)
  | 0, firstValue, second, st =>
    if firstValue = 11 ∧ second.value = 10 then none else some (second, st)
  | fuel + 1, firstValue, second, st =>
    if firstValue = 11 ∧ second.value = 10 then
      match dealCard st with
      | none => none
      | some cs => redrawLoop fuel firstValue cs.1 cs.2
    else some (second, st)

/-- the `while (dealerHand.value < 17 && !dealerHand.isBust)` dealer
draw loop, with explicit fuel -/
def dealerPlay : ℕ → List Card → DealState → Option (List Card × DealState)
  | 0, hand, st =>
    if (calculateValue hand).value < 17 ∧ (calculateValue hand).isBust = false then none
    else some (hand, st)
  | fuel + 1, hand, st =>
    if (calculateValue hand).value < 17 ∧ (calculateValue hand).isBust = false then
      match dealCard st with
      | none => none
      | some cs => dealerPlay fuel (hand ++ [cs.1]) cs.2
    else some (hand, st)

/-- the card-dealing part of `ScenarioManager.generateScenario`: force
the player blackjack, deal the dealer's first card, deal and possibly
redraw the second, then let the dealer draw to 17.  Returns the player
and dealer hands. -/
def generateDeal (deck : List Card) (reshuffles : List (List Card)) (fuel : ℕ) :
    Option (List Card × List Card) :=
  let pd := dealPlayerBlackjack deck
  (dealCard { deck := pd.2, reshuffles := reshuffles }).bind fun fs =>
    (dealCard fs.2).bind fun ss =>
      (redrawLoop fuel fs.1.value ss.1 ss.2).bind fun rs =>
        (dealerPlay fuel [fs.1, rs.1] rs.2).map fun ds =>
          (pd.1, ds.1)

/-- ScenarioManager.generateScenario: deal the hands, pick
`betAmounts[Math.floor(Math.random() * betAmounts.length)]` (the random
draw is modelled by the arbitrary index `betIdx` reduced mod the list
length), and build the `BlackjackScenario` -/
def generateScenario (deck : List Card) (reshuffles : List (List Card))
    (betIdx fuel : ℕ) : Option Scenario :=
  (generateDeal deck reshuffles fuel).map fun pd =>
    mkBlackjackScenario pd.1 pd.2 (betAmounts.getD (betIdx % betAmounts.length) 0)

/-! ### Chips (`Chip` class, script.js) -/

/-- a chip denomination in the tray; `count` is the available count
(initialized to 50 in the constructor) and `selected` the currently
selected count -/
structure Chip where
  value : ℚ
  color : String
  label : String
  count : ℤ
  selected : ℤ
deriving DecidableEq, Repr

/-- Chip.canSelect: `this.count > this.selected` -/
def Chip.canSelect (c : Chip) : Bool := c.selected < c.count

/-- Chip.select: increment `selected` and return true when possible,
otherwise return false leaving the chip unchanged -/
def Chip.select (c : Chip) : Chip × Bool :=
  if c.canSelect then ({ c with selected := c.selected + 1 }, true) else (c, false)

/-- Chip.deselect: decrement `selected` and return true when positive,
otherwise return false leaving the chip unchanged -/
def Chip.deselect (c : Chip) : Chip × Bool :=
  if 0 < c.selected then ({ c with selected := c.selected - 1 }, true) else (c, false)

/-- Chip.resetSelection: `this.selected = 0` -/
def Chip.resetSelection (c : Chip) : Chip := { c with selected := 0 }

/-! ### Session scoring (`GameState.recordCorrect` /
`GameState.recordIncorrect`, script.js) -/

/-- the `score` object fields the recorders touch -/
structure Score where
  correct : ℕ
  total : ℕ
deriving DecidableEq, Repr

/-- the `sessionStats` streak fields the recorders touch -/
structure SessionStats where
  currentStreak : ℕ
  bestStreak : ℕ
deriving DecidableEq, Repr

structure GameState where
  score : Score
  sessionStats : SessionStats
deriving DecidableEq, Repr

/-- GameState.recordCorrect: bump correct, total and the streak, then
raise the best streak when the new streak exceeds it (display and
persistence calls are UI side effects outside the core) -/
def recordCorrect (g : GameState) : GameState :=
  let streak := g.sessionStats.currentStreak + 1
  { score := { correct := g.score.correct + 1, total := g.score.total + 1 }
    sessionStats :=
      { currentStreak := streak
        bestStreak :=
          if g.sessionStats.bestStreak < streak then streak
          else g.sessionStats.bestStreak } }

/-- GameState.recordIncorrect: bump total and reset the streak -/
def recordIncorrect (g : GameState) : GameState :=
  { score := { correct := g.score.correct, total := g.score.total + 1 }
    sessionStats := { currentStreak := 0, bestStreak := g.sessionStats.bestStreak } }

/-! ### Claim C10 -/

/-- C10: hand valuation is total on the empty hand: `calculateValue`
yields value 0, no soft aces, no blackjack and no bust, without error. -/
theorem C10_emptyHand :
    calculateValue [] =
      { value := 0, softAces := 0, isBlackjack := false, isBust := false } := by
  decide

/-! ### Claim C6 -/

/-- what C6 asserts of the valuation of a hand: the value is the
11-per-ace sum lowered by 10 for each reduced ace, it lies between the
all-aces-low and all-aces-high sums, it exceeds 21 only when every ace
has been reduced (in which case it equals the all-aces-low sum), and
the bust flag holds exactly when it exceeds 21 -/
def handValueSpec (cards : List Card) : Prop :=
  (calculateValue cards).value =
    (cards.map Card.value).sum -
      10 * ((cards.filter Card.isAce).length - (calculateValue cards).softAces) ∧
  (calculateValue cards).softAces ≤ (cards.filter Card.isAce).length ∧
  (cards.map Card.value).sum - 10 * (cards.filter Card.isAce).length ≤
    (calculateValue cards).value ∧
  (calculateValue cards).value ≤ (cards.map Card.value).sum ∧
  (21 < (calculateValue cards).value →
    (calculateValue cards).softAces = 0 ∧
    (calculateValue cards).value =
      (cards.map Card.value).sum - 10 * (cards.filter Card.isAce).length) ∧
  ((calculateValue cards).isBust = true ↔ 21 < (calculateValue cards).value)

/-- C6: for every non-empty hand, `Hand.calculateValue` recomputes the
value from scratch as the sum of card values with aces high, reduced by
10 per soft ace while the sum exceeds 21; the result lies between the
all-aces-low and all-aces-high sums, is at most 21 unless no reduction
can achieve that, and the bust flag is set exactly when it exceeds 21. -/
theorem C6_handValue_spec (cards : List Card) (h : cards ≠ []) :
    handValueSpec cards := by
  have hval : (calculateValue cards).value =
      (reduceAces (cards.map Card.value).sum (cards.filter Card.isAce).length).1 := rfl
  have hsoft : (calculateValue cards).softAces =
      (reduceAces (cards.map Card.value).sum (cards.filter Card.isAce).length).2 := rfl
  have hbust : (calculateValue cards).isBust =
      decide (21 < (calculateValue cards).value) := rfl
  refine ⟨?_, ?_, ?_, ?_, ?_, ?_⟩
  · rw [hval, hsoft]
    exact reduceAces_eq _ _
  · rw [hsoft]
    exact reduceAces_snd_le _ _
  · rw [hval]
    exact reduceAces_ge _ _
  · rw [hval]
    exact reduceAces_le _ _
  · intro hgt
    rw [hval] at hgt
    have h0 := reduceAces_bust _ _ hgt
    have h1 := reduceAces_eq (cards.map Card.value).sum (cards.filter Card.isAce).length
    rw [hval, hsoft]
    constructor
    · exact h0
    · rw [h1, h0]
      omega
  · rw [hbust]
    exact decide_eq_true_iff

/-- C6 witness: the theorem applied to the concrete hand `A♠ K♠`. -/
theorem C6_witness :
    ([{ suit := .spades, rank := .A }, { suit := .spades, rank := .K }] : List Card) ≠ [] ∧
      handValueSpec [{ suit := .spades, rank := .A }, { suit := .spades, rank := .K }] :=
  ⟨by decide, C6_handValue_spec _ (by decide)⟩

/-! ### Claim C8 -/

/-- C8: each submission changes the session score by exactly one:
`recordCorrect` bumps both counters and the streak and raises the best
streak to the new streak when it exceeds it; `recordIncorrect` bumps
only the total and resets the streak. -/
theorem C8_scoring_spec (g : GameState) :
    (recordCorrect g).score.correct = g.score.correct + 1 ∧
    (recordCorrect g).score.total = g.score.total + 1 ∧
    (recordCorrect g).sessionStats.currentStreak = g.sessionStats.currentStreak + 1 ∧
    (recordCorrect g).sessionStats.bestStreak =
      max g.sessionStats.bestStreak (g.sessionStats.currentStreak + 1) ∧
    (recordIncorrect g).score.total = g.score.total + 1 ∧
    (recordIncorrect g).score.correct = g.score.correct ∧
    (recordIncorrect g).sessionStats.currentStreak = 0 ∧
    (recordIncorrect g).sessionStats.bestStreak = g.sessionStats.bestStreak := by
  refine ⟨rfl, rfl, rfl, ?_, rfl, rfl, rfl, rfl⟩
  simp only [recordCorrect]
  split <;> omega

/-! ### Claim C9 -/

/-- what C9 asserts of one chip: each operation preserves
`0 ≤ selected ≤ count`, `select` increments only under `canSelect` and
otherwise returns false leaving the chip unchanged, `deselect`
decrements only when something is selected and otherwise returns false
leaving the chip unchanged, and `resetSelection` zeroes the selection -/
def chipSpec (c : Chip) : Prop :=
  (0 ≤ (c.select).1.selected ∧ (c.select).1.selected ≤ (c.select).1.count) ∧
  (0 ≤ (c.deselect).1.selected ∧ (c.deselect).1.selected ≤ (c.deselect).1.count) ∧
  (0 ≤ c.resetSelection.selected ∧ c.resetSelection.selected ≤ c.resetSelection.count) ∧
  (c.selected < c.count → (c.select).1.selected = c.selected + 1 ∧ (c.select).2 = true) ∧
  (¬ c.selected < c.count → c.select = (c, false)) ∧
  (0 < c.selected → (c.deselect).1.selected = c.selected - 1 ∧ (c.deselect).2 = true) ∧
  (¬ 0 < c.selected → c.deselect = (c, false)) ∧
  c.resetSelection.selected = 0

/-- C9: the invariant `0 ≤ selected ≤ count` is preserved by `select`,
`deselect` and `resetSelection`, with `select`/`deselect` failing (and
leaving the chip unchanged) exactly outside their guards. -/
theorem C9_chip_invariant (c : Chip)
    (h : 0 ≤ c.selected ∧ c.selected ≤ c.count) : chipSpec c := by
  obtain ⟨h0, h1⟩ := h
  by_cases hs : c.selected < c.count <;>
    by_cases hd : 0 < c.selected <;>
      simp [chipSpec, Chip.select, Chip.deselect, Chip.resetSelection, Chip.canSelect,
        hs, hd] <;>
      omega

/-- a concrete $25 chip with 3 of 50 selected, for the C9 witness -/
def chipExample : Chip :=
  { value := 25, color := "chip-25", label := "$25", count := 50, selected := 3 }

/-- C9 witness: the theorem applied to the concrete chip. -/
theorem C9_witness :
    (0 ≤ chipExample.selected ∧ chipExample.selected ≤ chipExample.count) ∧
      chipSpec chipExample :=
  ⟨⟨by decide, by decide⟩, C9_chip_invariant _ ⟨by decide, by decide⟩⟩

/-! ### Claim C3 -/

/-- C3: for every scenario and submitted amount, `validatePayout`
answers correct exactly when the submitted amount is within the strict
0.01 tolerance of the computed correct payout, and carries the correct
amount, the submitted amount and their difference; it is total (never
throws), and a missing scenario yields `isCorrect = false` with the
explanatory message. -/
theorem C3_validatePayout_spec (s : Scenario) (sel : ℚ) :
    ((validatePayout (some s) sel).isCorrect = true ↔
      |sel - calculatePayout (some s)| < 1/100) ∧
    (validatePayout (some s) sel).correctAmount = some (calculatePayout (some s)) ∧
    (validatePayout (some s) sel).selectedAmount = some sel ∧
    (validatePayout (some s) sel).difference = some (sel - calculatePayout (some s)) ∧
    (validatePayout none sel).isCorrect = false ∧
    (validatePayout none sel).message = "No scenario provided" := by
  have ht : tolerance = 1/100 := by norm_num [tolerance]
  refine ⟨?_, rfl, rfl, rfl, rfl, rfl⟩
  simp only [validatePayout, ValidationResult.isCorrect, decide_eq_true_iff, ht]

/-! ### Claim C4 -/

/-- C4: `calculatePayout` follows the payout table — 3:2 for blackjack,
1:1 for a win, nothing for push/lose, and a defensive 0 (never a throw)
for an unknown result or a missing scenario; for the non-negative bets
this program uses the payout is non-negative, and it depends only on
the bet amount and the result string. -/
theorem C4_calculatePayout_table (s : Scenario) :
    (s.result = "blackjack" → calculatePayout (some s) = s.betAmount * 1.5) ∧
    (s.result = "win" → calculatePayout (some s) = s.betAmount * 1) ∧
    (s.result = "push" → calculatePayout (some s) = 0) ∧
    (s.result = "lose" → calculatePayout (some s) = 0) ∧
    (s.result ≠ "blackjack" → s.result ≠ "win" → s.result ≠ "push" →
      s.result ≠ "lose" → calculatePayout (some s) = 0) ∧
    calculatePayout none = 0 ∧
    (0 ≤ s.betAmount → 0 ≤ calculatePayout (some s)) ∧
    (∀ s2 : Scenario, s.betAmount = s2.betAmount → s.result = s2.result →
      calculatePayout (some s) = calculatePayout (some s2)) := by
  have hw : payoutRules.win = 1 := by norm_num [payoutRules]
  refine ⟨?_, ?_, ?_, ?_, ?_, rfl, ?_, ?_⟩
  · intro h
    simp [calculatePayout, h]
  · intro h
    simp [calculatePayout, h, hw]
  · intro h
    simp [calculatePayout, h]
  · intro h
    simp [calculatePayout, h]
  · intro h1 h2 h3 h4
    simp [calculatePayout, h1, h2, h3, h4]
  · intro hb
    simp only [calculatePayout]
    split_ifs <;> positivity
  · intro s2 hb hr
    simp only [calculatePayout, hb, hr]

/-- a bare scenario with the given bet and result, as the unit tests
build them, for the C4 witness -/
def plainScenario (bet : ℚ) (result : String) : Scenario :=
  { playerHand := []
    dealerHand := []
    betAmount := bet
    result := result
    correctPayout := 0 }

/-- C4 witness: the theorem applied at the documented example scenarios
(bet 10 blackjack pays 15, bet 25 win pays 25, push and lose pay 0, an
unknown result pays 0, a missing scenario pays 0). -/
theorem C4_witness :
    calculatePayout (some (plainScenario 10 "blackjack")) = 15 ∧
    calculatePayout (some (plainScenario 25 "win")) = 25 ∧
    calculatePayout (some (plainScenario 50 "push")) = 0 ∧
    calculatePayout (some (plainScenario 100 "lose")) = 0 ∧
    calculatePayout (some (plainScenario 40 "surrender")) = 0 ∧
    calculatePayout none = 0 := by
  refine ⟨?_, ?_, ?_, ?_, ?_, ?_⟩
  · rw [(C4_calculatePayout_table _).1 rfl]
    norm_num [plainScenario]
  · rw [(C4_calculatePayout_table _).2.1 rfl]
    norm_num [plainScenario]
  · exact (C4_calculatePayout_table _).2.2.1 rfl
  · exact (C4_calculatePayout_table _).2.2.2.1 rfl
  · exact (C4_calculatePayout_table (plainScenario 40 "surrender")).2.2.2.2.1
      (by decide) (by decide) (by decide) (by decide)
  · exact (C4_calculatePayout_table (plainScenario 40 "surrender")).2.2.2.2.2.1

/-! ### Claim C2 -/

theorem spliceFirst_prop (p : Card → Bool) (l : List Card) (c : Card)
    (l2 : List Card) (h : spliceFirst p l = some (c, l2)) : p c = true := by
  induction l generalizing l2 with
  | nil => simp [spliceFirst] at h
  | cons x xs ih =>
    simp only [spliceFirst] at h
    by_cases hx : p x
    · rw [if_pos hx] at h
      obtain ⟨rfl, -⟩ : x = c ∧ xs = l2 := by simpa using h
      exact hx
    · rw [if_neg hx, Option.map_eq_some'] at h
      obtain ⟨⟨c2, l3⟩, h1, h2⟩ := h
      obtain ⟨rfl, -⟩ : c2 = c ∧ x :: l3 = l2 := by simpa using h2
      exact ih l3 h1

theorem dealPlayerBlackjack_shape (deck : List Card) :
    ∃ a t, (dealPlayerBlackjack deck).1 = [a, t] ∧
      a.isAce = true ∧ isTenValue t = true := by
  simp only [dealPlayerBlackjack]
  cases hA : spliceFirst Card.isAce deck with
  | none => exact ⟨_, _, rfl, by decide, by decide⟩
  | some p =>
    obtain ⟨ace, d1⟩ := p
    cases hT : spliceFirst isTenValue d1 with
    | none =>
      refine ⟨{ suit := .hearts, rank := .A }, { suit := .spades, rank := .K }, ?_,
        by decide, by decide⟩
      simp only [hT]
    | some q =>
      obtain ⟨ten, d2⟩ := q
      refine ⟨ace, ten, ?_, spliceFirst_prop _ _ _ _ hA, spliceFirst_prop _ _ _ _ hT⟩
      simp only [hT]

/-- a forced ace-plus-ten hand evaluates to a natural 21 -/
theorem calculateValue_natural (a t : Card) (ha : a.isAce = true)
    (ht : isTenValue t = true) :
    calculateValue [a, t] =
      { value := 21, softAces := 1, isBlackjack := true, isBust := false } := by
  have hA : a.rank = Rank.A := by simpa [Card.isAce] using ha
  have hT : t.rank = Rank.r10 ∨ t.rank = Rank.J ∨ t.rank = Rank.Q ∨ t.rank = Rank.K := by
    simpa [isTenValue] using ht
  have hva : a.value = 11 := by rw [Card.value, hA]; rfl
  have hvt : t.value = 10 := by
    rcases hT with h | h | h | h <;> rw [Card.value, h] <;> rfl
  have hta : t.isAce = false := by
    rcases hT with h | h | h | h <;> simp [Card.isAce, h]
  simp [calculateValue, hva, hvt, ha, hta, reduceAces]

/-- the player hand of a completed deal is the forced-blackjack hand -/
theorem generateDeal_fst (deck : List Card) (reshuffles : List (List Card))
    (fuel : ℕ) (pd : List Card × List Card)
    (h : generateDeal deck reshuffles fuel = some pd) :
    pd.1 = (dealPlayerBlackjack deck).1 := by
  simp only [generateDeal, Option.bind_eq_some, Option.map_eq_some'] at h
  obtain ⟨fs, -, ss, -, rs, -, ds, -, h5⟩ := h
  rw [← h5]

/-- what C2 asserts of a generated scenario: the player hand is one ace
plus one ten-valued card (the synthetic fallback included), a natural
21 flagged as blackjack; the result is `blackjack`; the stored payout
is `betAmount × 1.5`; and the bet comes from the fixed positive bet
list -/
def scenarioSpec (s : Scenario) : Prop :=
  (∃ a t, s.playerHand = [a, t] ∧ a.isAce = true ∧ isTenValue t = true) ∧
  (calculateValue s.playerHand).value = 21 ∧
  (calculateValue s.playerHand).isBlackjack = true ∧
  s.result = "blackjack" ∧
  s.correctPayout = s.betAmount * 1.5 ∧
  s.betAmount ∈ betAmounts ∧
  0 < s.betAmount

/-- C2: every scenario the generator returns — for any shuffled deck,
any reshuffle stream, any random bet index and any loop fuel — has a
player hand of one ace and one ten-valued card (or the synthetic
fallback) valued 21 with the blackjack flag set, result `blackjack`,
payout `betAmount × 1.5`, and a positive bet drawn from the fixed bet
list. -/
theorem C2_generateScenario_spec (deck : List Card) (reshuffles : List (List Card))
    (betIdx fuel : ℕ) (s : Scenario)
    (h : generateScenario deck reshuffles betIdx fuel = some s) : scenarioSpec s := by
  simp only [generateScenario, Option.map_eq_some'] at h
  obtain ⟨pd, hpd, hs⟩ := h
  subst hs
  obtain ⟨a, t, hsh, ha, ht⟩ := dealPlayerBlackjack_shape deck
  have hfst : pd.1 = [a, t] := by rw [generateDeal_fst deck reshuffles fuel pd hpd, hsh]
  have hlen : 0 < betAmounts.length := by decide
  have hlt : betIdx % betAmounts.length < betAmounts.length := Nat.mod_lt _ hlen
  have hmem : betAmounts.getD (betIdx % betAmounts.length) 0 ∈ betAmounts := by
    rw [List.getD_eq_getElem betAmounts 0 hlt]
    exact List.getElem_mem hlt
  refine ⟨⟨a, t, hfst, ha, ht⟩, ?_, ?_, rfl, rfl, hmem, ?_⟩
  · show (calculateValue pd.1).value = 21
    rw [hfst, calculateValue_natural a t ha ht]
  · show (calculateValue pd.1).isBlackjack = true
    rw [hfst, calculateValue_natural a t ha ht]
  · exact (by decide : ∀ x ∈ betAmounts, 0 < x) _ hmem

/-- the scenario produced from the deck in construction order with bet
index 0: player `A♥ 10♥`, dealer `K♠ Q♠`, bet 5 -/
def scenarioExample : Scenario :=
  mkBlackjackScenario
    [{ suit := .hearts, rank := .A }, { suit := .hearts, rank := .r10 }]
    [{ suit := .spades, rank := .K }, { suit := .spades, rank := .Q }] 5

/-- C2 witness: the theorem applied to a concrete run of the generator
on the deck in construction order. -/
theorem C2_witness :
    generateScenario initializeDeck [] 0 60 = some scenarioExample ∧
      scenarioSpec scenarioExample := by
  have h : generateScenario initializeDeck [] 0 60 = some scenarioExample := by
    rw [generateScenario, show generateDeal initializeDeck [] 60 =
      some ([{ suit := .hearts, rank := .A }, { suit := .hearts, rank := .r10 }],
        [{ suit := .spades, rank := .K }, { suit := .spades, rank := .Q }]) from by decide]
    rfl
  exact ⟨h, C2_generateScenario_spec _ _ _ _ _ h⟩

/-! ### Claim C5 -/

/-- a full 52-card shuffle outcome under which the dealer is dealt a
ten-valued card first and an ace second: the deck in construction order
with `A♠` and `K♠` moved to the end (`pop` deals from the end, so they
are the dealer's first two cards after the player takes `A♥` and
`10♥`) -/
def dealerTenAceDeck : List Card :=
  (initializeDeck.filter fun c =>
    !(c = { suit := .spades, rank := .A } ∨ c = { suit := .spades, rank := .K })) ++
    [{ suit := .spades, rank := .A }, { suit := .spades, rank := .K }]

/-- C5 is violated by the code: `dealerTenAceDeck` is a genuine
permutation of the 52-card deck (hence a reachable shuffle outcome), and
on it the generator deals the dealer `K♠` then `A♠` — a two-card 21
whose blackjack flag is set — because the redraw guard only fires when
the FIRST dealer card is the ace.  Only the ace-first ordering is
redrawn, so the intended invariant fails in the ten-first ordering. -/
theorem C5_dealer_natural_reachable :
    dealerTenAceDeck.Perm initializeDeck ∧
    (generateDeal dealerTenAceDeck [] 60).map (fun pd => pd.2) =
      some [{ suit := .spades, rank := .K }, { suit := .spades, rank := .A }] ∧
    (generateDeal dealerTenAceDeck [] 60).map
      (fun pd => (calculateValue pd.2).isBlackjack) = some true := by
  refine ⟨by decide, by decide, by decide⟩

/-! ### Claim C1 -/

/-- a target expressible as a non-negative integer combination of the
canonical denomination set {1, 2.5, 5, 25, 100, 500, 1000} -/
def Representable (t : ℚ) : Prop :=
  ∃ a b c d e f g : ℕ,
    t = a * 1 + b * (2.5 : ℚ) + c * 5 + d * 25 + e * 100 + f * 500 + g * 1000

/-- an amount that is a whole number of cents -/
def CentAligned (q : ℚ) : Prop := ∃ k : ℤ, q = (k : ℚ) / 100

theorem centAligned_roundCents (q : ℚ) (h : CentAligned q) : roundCents q = q := by
  obtain ⟨k, rfl⟩ := h
  rw [roundCents]
  have h1 : (k : ℚ) / 100 * 100 + 1 / 2 = (k : ℚ) + 1 / 2 := by
    field_simp
  rw [h1]
  have h2 : ⌊(k : ℚ) + 1 / 2⌋ = k + ⌊(1 / 2 : ℚ)⌋ := Int.floor_int_add k (1 / 2)
  have h3 : ⌊(1 / 2 : ℚ)⌋ = 0 := by norm_num
  rw [h2, h3, add_zero]

theorem centAligned_sub (a b : ℚ) (ha : CentAligned a) (hb : CentAligned b) :
    CentAligned (a - b) := by
  obtain ⟨k1, rfl⟩ := ha
  obtain ⟨k2, rfl⟩ := hb
  exact ⟨k1 - k2, by push_cast; ring⟩

theorem centAligned_intMul (n : ℤ) (a : ℚ) (ha : CentAligned a) :
    CentAligned ((n : ℚ) * a) := by
  obtain ⟨k, rfl⟩ := ha
  exact ⟨n * k, by push_cast; ring⟩

/-- loop invariant of the greedy decomposition: on a non-negative
cent-aligned remainder and positive cent-aligned chip values, the
recorded pairs plus the final remainder account exactly for the input
remainder (the per-step cent rounding is the identity there), and the
final remainder stays non-negative and cent-aligned -/
theorem greedyLoop_sum (chips : List ℚ) :
    ∀ rem : ℚ, 0 ≤ rem → CentAligned rem →
      (∀ v ∈ chips, 0 < v ∧ CentAligned v) →
      chipSum (greedyLoop chips rem).1 + (greedyLoop chips rem).2 = rem ∧
        0 ≤ (greedyLoop chips rem).2 ∧ CentAligned (greedyLoop chips rem).2 := by
  induction chips with
  | nil =>
    intro rem h0 hca _
    refine ⟨by simp [greedyLoop, chipSum], ?_, ?_⟩
    · simpa [greedyLoop] using h0
    · simpa [greedyLoop] using hca
  | cons v rest ih =>
    intro rem h0 hca hch
    obtain ⟨hv, hva⟩ := hch v (List.mem_cons_self _ _)
    have hrest : ∀ w ∈ rest, 0 < w ∧ CentAligned w :=
      fun w hw => hch w (List.mem_cons_of_mem _ hw)
    simp only [greedyLoop]
    by_cases hc : (0 : ℤ) < ⌊rem / v⌋
    · rw [if_pos hc]
      have hle : (⌊rem / v⌋ : ℚ) * v ≤ rem := by
        have hfl : (⌊rem / v⌋ : ℚ) ≤ rem / v := Int.floor_le (rem / v)
        have := mul_le_mul_of_nonneg_right hfl (le_of_lt hv)
        rwa [div_mul_cancel₀ rem (ne_of_gt hv)] at this
      have h0' : 0 ≤ rem - (⌊rem / v⌋ : ℚ) * v := by linarith
      have ha' : CentAligned (rem - (⌊rem / v⌋ : ℚ) * v) :=
        centAligned_sub _ _ hca (centAligned_intMul _ _ hva)
      rw [centAligned_roundCents _ ha']
      obtain ⟨ihs, ih0, iha⟩ := ih (rem - (⌊rem / v⌋ : ℚ) * v) h0' ha' hrest
      refine ⟨?_, ih0, iha⟩
      simp only [chipSum, List.map_cons, List.sum_cons] at ihs ⊢
      linarith
    · rw [if_neg hc]
      exact ih rem h0 hca hrest

theorem representable_nonneg (t : ℚ) (h : Representable t) : 0 ≤ t := by
  obtain ⟨a, b, c, d, e, f, g, rfl⟩ := h
  positivity

theorem representable_centAligned (t : ℚ) (h : Representable t) : CentAligned t := by
  obtain ⟨a, b, c, d, e, f, g, rfl⟩ := h
  refine ⟨100 * a + 250 * b + 500 * c + 2500 * d + 10000 * e + 50000 * f + 100000 * g, ?_⟩
  push_cast
  norm_num
  ring

/-- evaluation of the descending sort of the tray denominations -/
theorem sortDesc_stdChips : sortDesc stdChips = [1000, 500, 100, 25, 5, 5/2, 1] := by
  norm_num [sortDesc, insertDesc, stdChips]

theorem stdChips_sorted_pos : ∀ v ∈ sortDesc stdChips, 0 < v ∧ CentAligned v := by
  rw [sortDesc_stdChips]
  intro v hv
  fin_cases hv
  · exact ⟨by norm_num, ⟨100000, by norm_num⟩⟩
  · exact ⟨by norm_num, ⟨50000, by norm_num⟩⟩
  · exact ⟨by norm_num, ⟨10000, by norm_num⟩⟩
  · exact ⟨by norm_num, ⟨2500, by norm_num⟩⟩
  · exact ⟨by norm_num, ⟨500, by norm_num⟩⟩
  · exact ⟨by norm_num, ⟨250, by norm_num⟩⟩
  · exact ⟨by norm_num, ⟨100, by norm_num⟩⟩

/-- C1 counterexample: the target 3 is representable (three $1 chips),
yet the greedy decomposition returns `null`: it takes one $2.50 chip
out of 3 and strands a remainder of $0.50, so the denomination set with
the $2.50 chip is not canonical for the greedy heuristic. -/
theorem C1_counterexample :
    Representable 3 ∧ calculateOptimalChips 3 stdChips = none := by
  constructor
  · exact ⟨3, 0, 0, 0, 0, 0, 0, by norm_num⟩
  · norm_num [calculateOptimalChips, sortDesc, insertDesc, stdChips, greedyLoop,
      roundCents, tolerance]

/-- C1 (amended): for a representable target the decomposition may
return `null`, but whenever it does return a combination, the sum of
`count × value` over the returned pairs reproduces the target within
the 0.01 tolerance. -/
theorem C1_greedy_roundTrip (t : ℚ) (l : List (ℚ × ℤ)) (ht : Representable t)
    (h : calculateOptimalChips t stdChips = some l) : |chipSum l - t| < 1/100 := by
  have h0 := representable_nonneg t ht
  have ha := representable_centAligned t ht
  by_cases hle : t ≤ 0
  · have ht0 : t = 0 := le_antisymm hle h0
    subst ht0
    simp only [calculateOptimalChips, if_pos (le_refl (0 : ℚ))] at h
    obtain rfl : ([] : List (ℚ × ℤ)) = l := Option.some.inj h
    simp [chipSum]
  · simp only [calculateOptimalChips, if_neg hle] at h
    split at h
    · rename_i htol
      obtain rfl := Option.some.inj h
      obtain ⟨hsum, hr0, -⟩ := greedyLoop_sum (sortDesc stdChips) t h0 ha stdChips_sorted_pos
      have hdiff : chipSum (greedyLoop (sortDesc stdChips) t).1 - t =
          -(greedyLoop (sortDesc stdChips) t).2 := by linarith
      rw [hdiff, abs_neg, abs_of_nonneg hr0]
      have htol2 : tolerance = 1/100 := by norm_num [tolerance]
      rw [htol2] at htol
      exact htol
    · exact absurd h (by simp)

/-- C1 witness: the amended theorem applied at the representable target
5, where the greedy decomposition returns one $5 chip. -/
theorem C1_witness :
    Representable 5 ∧ calculateOptimalChips 5 stdChips = some [(5, 1)] ∧
      |chipSum [(5, 1)] - 5| < 1/100 := by
  have h1 : Representable 5 := ⟨0, 0, 1, 0, 0, 0, 0, by norm_num⟩
  have h2 : calculateOptimalChips 5 stdChips = some [(5, 1)] := by
    norm_num [calculateOptimalChips, sortDesc, insertDesc, stdChips, greedyLoop,
      roundCents, tolerance]
  exact ⟨h1, h2, C1_greedy_roundTrip 5 _ h1 h2⟩

/-! ### Claim C7 -/

/-- the casino-style `Math.min` adjustments in `calculateBetChips` are
no-ops, so its loop computes exactly the greedy loop over the same
values -/
theorem betLoop_map_eq (chips : List BetChip) :
    ∀ rem : ℚ, (betLoop chips rem).map (fun p => (p.1.value, p.2)) =
      (greedyLoop (chips.map BetChip.value) rem).1 := by
  induction chips with
  | nil => intro rem; simp [betLoop, greedyLoop]
  | cons c rest ih =>
    intro rem
    simp only [betLoop, greedyLoop, List.map_cons]
    have hcount : (if c.value = 25 ∧ (0 : ℤ) < ⌊rem / c.value⌋ then
          min ⌊rem / c.value⌋ ⌊rem / 25⌋
        else if c.value = 5 ∧ (0 : ℤ) < ⌊rem / c.value⌋ then
          min ⌊rem / c.value⌋ ⌊rem / 5⌋
        else ⌊rem / c.value⌋) = ⌊rem / c.value⌋ := by
      split_ifs with h1 h2
      · rw [← h1.1]
        exact min_self _
      · rw [← h2.1]
        exact min_self _
      · rfl
    rw [hcount]
    by_cases hc : (0 : ℤ) < ⌊rem / c.value⌋
    · rw [if_pos hc, if_pos hc]
      simp only [List.map_cons, ih]
    · rw [if_neg hc, if_neg hc]
      exact ih rem

theorem betLoop_nonpos (chips : List BetChip) (hch : ∀ c ∈ chips, 0 < c.value) :
    ∀ rem : ℚ, rem ≤ 0 → betLoop chips rem = [] := by
  induction chips with
  | nil => intro rem _; rfl
  | cons c rest ih =>
    intro rem hrem
    have hv := hch c (List.mem_cons_self _ _)
    have hfl : (⌊rem / c.value⌋ : ℤ) ≤ 0 :=
      Int.floor_nonpos (div_nonpos_of_nonpos_of_nonneg hrem (le_of_lt hv))
    have hc : ¬ (0 : ℤ) < ⌊rem / c.value⌋ := not_lt.mpr hfl
    have h25 : ¬ (c.value = 25 ∧ (0 : ℤ) < ⌊rem / c.value⌋) := fun hx => hc hx.2
    have h5 : ¬ (c.value = 5 ∧ (0 : ℤ) < ⌊rem / c.value⌋) := fun hx => hc hx.2
    simp only [betLoop, if_neg h25, if_neg h5, if_neg hc]
    exact ih (fun w hw => hch w (List.mem_cons_of_mem _ hw)) rem hrem

theorem chipDenominations_pos : ∀ c ∈ chipDenominations, 0 < c.value := by
  intro c hc
  fin_cases hc <;> norm_num [chipDenominations]

/-- the hard-coded display denominations are exactly the tray
denominations sorted descending -/
theorem chipDenominations_values :
    chipDenominations.map BetChip.value = sortDesc stdChips := by
  rw [sortDesc_stdChips]
  norm_num [chipDenominations]

/-- C7: the bet display runs the same algorithm as the decomposition
engine: whenever `calculateOptimalChips` on the seven standard
denominations returns a combination, `calculateBetChips` returns
exactly the same (denomination value, count) pairs. -/
theorem C7_betChips_refines (t : ℚ) (l : List (ℚ × ℤ))
    (h : calculateOptimalChips t stdChips = some l) :
    (calculateBetChips t).map (fun p => (p.1.value, p.2)) = l := by
  by_cases hle : t ≤ 0
  · simp only [calculateOptimalChips, if_pos hle] at h
    obtain rfl : ([] : List (ℚ × ℤ)) = l := Option.some.inj h
    rw [calculateBetChips, betLoop_nonpos chipDenominations chipDenominations_pos t hle]
    rfl
  · simp only [calculateOptimalChips, if_neg hle] at h
    split at h
    · obtain rfl := Option.some.inj h
      rw [calculateBetChips, betLoop_map_eq, chipDenominations_values]
    · exact absurd h (by simp)

/-- C7 witness: the theorem applied at the documented target 37, where
both functions produce one $25, two $5 and two $1 chips. -/
theorem C7_witness :
    calculateOptimalChips 37 stdChips = some [(25, 1), (5, 2), (1, 2)] ∧
      (calculateBetChips 37).map (fun p => (p.1.value, p.2)) =
        [(25, 1), (5, 2), (1, 2)] := by
  have h : calculateOptimalChips 37 stdChips = some [(25, 1), (5, 2), (1, 2)] := by
    norm_num [calculateOptimalChips, sortDesc, insertDesc, stdChips, greedyLoop,
      roundCents, tolerance]
  exact ⟨h, C7_betChips_refines 37 _ h⟩

end Blackjack
